import Mathlib

/-!
Verification model of the `assembly-cli` repository (Rust).

The repository is a CLI client for a transcription / question-answering web
API.  Its components, embedded shallowly here:

* `Json` models `serde_json::Value` (numbers restricted to the integer case;
  object maps are `BTreeMap`-like sorted association lists, modelled as plain
  association lists plus the `isCanonical` invariant below).
* `to_string_pretty` models `serde_json::to_string_pretty` (the
  `PrettyFormatter` with two-space indentation).
* `from_str` models `serde_json::from_str::<Value>` restricted to integer
  numbers.
* `wait_for_transcription` models `Transcriber::wait_for_transcription`
  (src/transcribe.rs) run against a scripted list of HTTP responses,
  recording the trace of GETs, sleeps and file writes.
* `transcribe_parse` models the response handling of `Transcriber::transcribe`.
* `ask_process` models the response handling of `QuestionAnswer::ask`
  (src/question_answer.rs).
* `run` models `transcribe::run` (src/transcribe.rs).
-/

/-- Whitespace characters accepted by the JSON parser (serde_json:
space, tab, newline, carriage return). -/
def isWsCh (c : Char) : Bool :=
  c = ' ' || c = '\t' || c = '\n' || c = '\r'

/-- ASCII decimal digit test. -/
def isDigitCh (c : Char) : Bool :=
  '0' ≤ c && c ≤ '9'

/-- The character for a decimal digit `d < 10`. -/
def digitChar (d : Nat) : Char := Char.ofNat (48 + d)

/-- Numeric value of a decimal digit character. -/
def digitVal (c : Char) : Nat := c.toNat - 48

/-- Lowercase hexadecimal digit character, as emitted by serde_json's
`\u00XX` escapes. -/
def hexDigitChar (d : Nat) : Char :=
  if d < 10 then Char.ofNat (48 + d) else Char.ofNat (87 + d)

/-- Value of a hexadecimal digit character (serde accepts both cases). -/
def hexVal? (c : Char) : Option Nat :=
  if '0' ≤ c && c ≤ '9' then some (c.toNat - 48)
  else if 'a' ≤ c && c ≤ 'f' then some (c.toNat - 87)
  else if 'A' ≤ c && c ≤ 'F' then some (c.toNat - 55)
  else none

/-- Lexicographic order on character lists; on strings this coincides with
Rust's byte-wise `String` ordering (UTF-8 byte order equals scalar-value
order), the order used by `BTreeMap<String, Value>` inside
`serde_json::Value::Object`. -/
def charListLt : List Char → List Char → Bool
  | [], [] => false
  | [], _ :: _ => true
  | _ :: _, [] => false
  | a :: as, b :: bs => a < b || (a = b && charListLt as bs)

/-- String order used by the object maps. -/
def strLt (a b : String) : Bool := charListLt a.data b.data

/-- `serde_json::Value`, with numbers restricted to integers (the payloads
in this development never use floats). Objects are association lists; the
`BTreeMap` invariant (strictly sorted, unique keys) is the separate
predicate `isCanonical`. -/
inductive Json where
  | null
  | bool (b : Bool)
  | num (n : Int)
  | str (s : String)
  | arr (xs : List Json)
  | obj (kvs : List (String × Json))

/-- `Value::get(key)`: key lookup on objects, `None` on anything else. -/
def Json.get : Json → String → Option Json
  | .obj kvs, key => lookupKV key kvs
  | _, _ => none
where
  lookupKV (key : String) : List (String × Json) → Option Json
    | [] => none
    | (k, v) :: rest => if k = key then some v else lookupKV key rest

/-- `Value::as_str()`. -/
def Json.as_str : Json → Option String
  | .str s => some s
  | _ => none

/-! ### Pretty printer (`serde_json::to_string_pretty`) -/

/-- Decimal digits of a natural number, most significant first
(fuel-based so that it reduces definitionally; `n + 1` fuel always
suffices). -/
def natDigitsAux : Nat → Nat → List Char
  | 0, _ => []
  | fuel + 1, n =>
    if n < 10 then [digitChar n]
    else natDigitsAux fuel (n / 10) ++ [digitChar (n % 10)]

/-- Decimal representation of a natural number. -/
def natDigits (n : Nat) : List Char := natDigitsAux (n + 1) n

/-- Decimal representation of an integer, as Rust's `i64` `Display`
(used by serde's integer serialization): digits, with `-` for negatives. -/
def intChars : Int → List Char
  | .ofNat m => natDigits m
  | .negSucc m => '-' :: natDigits (m + 1)

/-- serde_json's escaping of one string character: `"` and `\` get a
backslash, the five named control escapes are used for 0x08/0x09/0x0A/0x0C/
0x0D, other control characters become `\u00XX` (lowercase hex), everything
else is emitted verbatim. -/
def escapeChar (c : Char) : List Char :=
  if c = '"' then ['\\', '"']
  else if c = '\\' then ['\\', '\\']
  else if c.toNat < 0x20 then
    if c.toNat = 8 then ['\\', 'b']
    else if c.toNat = 9 then ['\\', 't']
    else if c.toNat = 10 then ['\\', 'n']
    else if c.toNat = 12 then ['\\', 'f']
    else if c.toNat = 13 then ['\\', 'r']
    else ['\\', 'u', '0', '0', hexDigitChar (c.toNat / 16), hexDigitChar (c.toNat % 16)]
  else [c]

/-- Escape a whole string body. -/
def escapeList : List Char → List Char
  | [] => []
  | c :: cs => escapeChar c ++ escapeList cs

/-- A JSON string literal: quote, escaped body, quote. -/
def printStrRaw (s : String) : List Char :=
  '"' :: (escapeList s.data ++ ['"'])

/-- The `PrettyFormatter` indentation: two spaces per nesting level. -/
def indentCh (n : Nat) : List Char := List.replicate (2 * n) ' '

mutual

/-- Characters printed for a value at indentation level `ind`, following
serde_json's `PrettyFormatter` exactly: empty containers print as `[]`/`{}`,
non-empty ones put every item on its own line, indented one level deeper,
separated by commas. -/
def printVal (ind : Nat) : Json → List Char
  | .num n => intChars n
  | .str s => printStrRaw s
  | .null => ['n', 'u', 'l', 'l']
  | .bool false => ['f', 'a', 'l', 's', 'e']
  | .bool true => ['t', 'r', 'u', 'e']
  | .arr [] => ['[', ']']
  | .arr (x :: xs) =>
    '[' :: '\n' :: (indentCh (ind + 1) ++ printVal (ind + 1) x ++ printArrItems (ind + 1) xs
      ++ '\n' :: (indentCh ind ++ [']']))
  | .obj [] => ['{', '}']
  | .obj ((k, v) :: kvs) =>
    '{' :: '\n' :: (indentCh (ind + 1) ++ printStrRaw k ++ ':' :: ' ' :: printVal (ind + 1) v
      ++ printObjItems (ind + 1) kvs ++ '\n' :: (indentCh ind ++ ['}']))

/-- The remaining array items: each preceded by `,\n` and the indentation. -/
def printArrItems (ind : Nat) : List Json → List Char
  | [] => []
  | x :: xs => ',' :: '\n' :: (indentCh ind ++ printVal ind x ++ printArrItems ind xs)

/-- The remaining object members. -/
def printObjItems (ind : Nat) : List (String × Json) → List Char
  | [] => []
  | (k, v) :: kvs =>
    ',' :: '\n' :: (indentCh ind ++ printStrRaw k ++ ':' :: ' ' :: printVal ind v
      ++ printObjItems ind kvs)

end

/-- `serde_json::to_string_pretty`. -/
def to_string_pretty (j : Json) : String := ⟨printVal 0 j⟩

/-! ### Parser (`serde_json::from_str::<Value>`, integer numbers) -/

/-- Skip JSON whitespace. -/
def skipWs (cs : List Char) : List Char := cs.dropWhile isWsCh

/-- Match a literal tail (e.g. `ull` after `n`), returning the rest. -/
def stripLit : List Char → List Char → Option (List Char)
  | [], cs => some cs
  | _ :: _, [] => none
  | p :: ps, c :: cs => if c = p then stripLit ps cs else none

/-- Parse the body of a string literal (after the opening quote), undoing
serde's escapes; raw control characters are rejected, as serde does. -/
def parseStrChars : List Char → Option (List Char × List Char)
  | [] => none
  | c :: cs =>
    if c = '"' then some ([], cs)
    else if c = '\\' then
      match cs with
      | [] => none
      | e :: cs' =>
        if e = 'u' then
          match cs' with
          | h1 :: h2 :: h3 :: h4 :: cs'' =>
            match hexVal? h1, hexVal? h2, hexVal? h3, hexVal? h4 with
            | some a, some b, some c2, some d =>
              let n := ((a * 16 + b) * 16 + c2) * 16 + d
              if n < 0xD800 ∨ (0xE000 ≤ n ∧ n < 0x110000) then
                match parseStrChars cs'' with
                | some (body, rest) => some (Char.ofNat n :: body, rest)
                | none => none
              else none
            | _, _, _, _ => none
          | _ => none
        else
          match unescapeCh e with
          | some u =>
            match parseStrChars cs' with
            | some (body, rest) => some (u :: body, rest)
            | none => none
          | none => none
    else if c.toNat < 0x20 then none
    else
      match parseStrChars cs with
      | some (body, rest) => some (c :: body, rest)
      | none => none
where
  unescapeCh (e : Char) : Option Char :=
    if e = '"' then some '"'
    else if e = '\\' then some '\\'
    else if e = '/' then some '/'
    else if e = 'b' then some (Char.ofNat 8)
    else if e = 'f' then some (Char.ofNat 12)
    else if e = 'n' then some '\n'
    else if e = 'r' then some '\r'
    else if e = 't' then some '\t'
    else none

/-- Accumulate further decimal digits. -/
def parseDigitsAux (acc : Nat) : List Char → Nat × List Char
  | [] => (acc, [])
  | c :: cs =>
    if isDigitCh c then parseDigitsAux (acc * 10 + digitVal c) cs else (acc, c :: cs)

/-- Does the input start with a digit? -/
def headIsDigit : List Char → Bool
  | [] => false
  | c :: _ => isDigitCh c

/-- Parse an unsigned integer; serde forbids leading zeros (`0` may not be
followed by another digit). -/
def parseNumNat : List Char → Option (Nat × List Char)
  | [] => none
  | c :: cs =>
    if c = '0' then
      if headIsDigit cs then none else some (0, cs)
    else if isDigitCh c then some (parseDigitsAux (digitVal c) cs)
    else none

/-- `BTreeMap::insert` on the sorted association list: keeps keys strictly
sorted, replaces the value on an equal key (so later duplicate keys win, as
in serde). -/
def insertKV (k : String) (v : Json) : List (String × Json) → List (String × Json)
  | [] => [(k, v)]
  | (k', v') :: rest =>
    if strLt k k' then (k, v) :: (k', v') :: rest
    else if k = k' then (k, v) :: rest
    else (k', v') :: insertKV k v rest

/-- Build the object map from members in textual order, by repeated
insertion (what serde's `Value` deserializer does). -/
def buildObj (entries : List (String × Json)) : List (String × Json) :=
  entries.foldl (fun m kv => insertKV kv.1 kv.2 m) []

mutual

/-- Parse one JSON value (leading whitespace allowed), fuel-based.
Returns the value and the unconsumed input. -/
def parseValue : Nat → List Char → Option (Json × List Char)
  | 0, _ => none
  | f + 1, cs =>
    match skipWs cs with
    | [] => none
    | c :: rest =>
      if c = 'n' then
        match stripLit ['u', 'l', 'l'] rest with
        | some r => some (.null, r)
        | none => none
      else if c = 't' then
        match stripLit ['r', 'u', 'e'] rest with
        | some r => some (.bool true, r)
        | none => none
      else if c = 'f' then
        match stripLit ['a', 'l', 's', 'e'] rest with
        | some r => some (.bool false, r)
        | none => none
      else if c = '"' then
        match parseStrChars rest with
        | some (body, r) => some (.str ⟨body⟩, r)
        | none => none
      else if c = '[' then
        match skipWs rest with
        | [] => none
        | d :: r =>
          if d = ']' then some (.arr [], r)
          else
            match parseArrItems f (d :: r) with
            | some (xs, r') => some (.arr xs, r')
            | none => none
      else if c = '{' then
        match skipWs rest with
        | [] => none
        | d :: r =>
          if d = '}' then some (.obj [], r)
          else
            match parseObjItems f (d :: r) with
            | some (entries, r') => some (.obj (buildObj entries), r')
            | none => none
      else if c = '-' then
        match parseNumNat rest with
        | some (m, r) => some (.num (-(m : Int)), r)
        | none => none
      else if isDigitCh c then
        match parseNumNat (c :: rest) with
        | some (m, r) => some (.num (m : Int), r)
        | none => none
      else none

/-- Parse the items of a non-empty array, positioned at the first item. -/
def parseArrItems : Nat → List Char → Option (List Json × List Char)
  | 0, _ => none
  | f + 1, cs =>
    match parseValue f cs with
    | none => none
    | some (v, r) =>
      match skipWs r with
      | [] => none
      | c :: r' =>
        if c = ',' then
          match parseArrItems f r' with
          | some (vs, r'') => some (v :: vs, r'')
          | none => none
        else if c = ']' then some ([v], r')
        else none

/-- Parse the members of a non-empty object, positioned at the first key. -/
def parseObjItems : Nat → List Char → Option (List (String × Json) × List Char)
  | 0, _ => none
  | f + 1, cs =>
    match skipWs cs with
    | [] => none
    | c :: rest =>
      if c = '"' then
        match parseStrChars rest with
        | none => none
        | some (kbody, r1) =>
          match skipWs r1 with
          | [] => none
          | d :: r2 =>
            if d = ':' then
              match parseValue f r2 with
              | none => none
              | some (v, r3) =>
                match skipWs r3 with
                | [] => none
                | e :: r4 =>
                  if e = ',' then
                    match parseObjItems f r4 with
                    | some (entries, r5) => some ((⟨kbody⟩, v) :: entries, r5)
                    | none => none
                  else if e = '}' then some ([(⟨kbody⟩, v)], r4)
                  else none
            else none
      else none

end

/-- `serde_json::from_str::<Value>`: parse one value, then require only
whitespace to remain. The fuel `length + 1` always suffices (each fuel
level consumes at least one input character). -/
def from_str (s : String) : Option Json :=
  match parseValue (s.data.length + 1) s.data with
  | some (j, rest) => if skipWs rest = [] then some j else none
  | none => none

/-! ### The `serde_json::Value` invariant -/

mutual

/-- The invariant every real `serde_json::Value` satisfies: object maps are
strictly sorted by key (they are `BTreeMap`s). -/
def isCanonical : Json → Bool
  | .null => true
  | .bool _ => true
  | .num _ => true
  | .str _ => true
  | .arr xs => listCanonical xs
  | .obj kvs => objCanonical kvs

/-- All elements canonical. -/
def listCanonical : List Json → Bool
  | [] => true
  | x :: xs => isCanonical x && listCanonical xs

/-- Keys pairwise strictly increasing, values canonical. -/
def objCanonical : List (String × Json) → Bool
  | [] => true
  | (k, v) :: rest => isCanonical v && keyLtAll k rest && objCanonical rest

/-- `k` is below every key of the list. -/
def keyLtAll (k : String) : List (String × Json) → Bool
  | [] => true
  | (k', _) :: rest => strLt k k' && keyLtAll k rest

end

mutual

/-- Fuel needed by the parser to re-read a printed value. -/
def jsize : Json → Nat
  | .null => 1
  | .bool _ => 1
  | .num _ => 1
  | .str _ => 1
  | .arr xs => 1 + itemsSize xs
  | .obj kvs => 1 + membersSize kvs

/-- Fuel needed for the items of an array. -/
def itemsSize : List Json → Nat
  | [] => 0
  | x :: xs => 1 + jsize x + itemsSize xs

/-- Fuel needed for the members of an object. -/
def membersSize : List (String × Json) → Nat
  | [] => 0
  | (_, v) :: kvs => 1 + jsize v + membersSize kvs

end

/-! ### Poller (`Transcriber::wait_for_transcription`, src/transcribe.rs) -/

/-- One scripted HTTP response for a polling GET: the send can fail, the
body can fail to parse as JSON, or a JSON body is produced. -/
inductive PollResponse where
  | netErr
  | badBody
  | body (j : Json)

/-- The failure cases of the polling loop, one per early return of the
Rust code. -/
inductive PollError where
  | transport
  | malformed
  | missingStatus
  | statusNotStr
  | missingError
  | serviceError (e : Json)

/-- Observable side effects of the transcription flow: an HTTP GET, a
blocking sleep of the given number of seconds, a file write. -/
inductive Ev where
  | get
  | sleep (secs : Nat)
  | write (file : String) (contents : String)

/-- `write_to_file` (src/transcribe.rs): pretty-print the payload and write
it to `<id>.json` in the current working directory. -/
def write_to_file (transcription_id : String) (content : Json) : Ev :=
  .write (transcription_id ++ ".json") (to_string_pretty content)

/-- `Transcriber::wait_for_transcription` run against a scripted list of
responses, one per GET.  Returns the event trace and the outcome: `none`
means the script ran out while the loop was still polling (the real loop
would keep going), `some r` is the loop's returned `Result`.

Mirrors the Rust loop: GET; error on failed send or unparsable body or a
missing / non-string `status`; on `"completed"` call `write_to_file` and
return `Ok(())`; on `"error"` return the payload's `error` field as the
error (or "error not present" if absent); otherwise sleep 10 seconds and
loop. -/
def wait_for_transcription (transcript_id : String) :
    List PollResponse → List Ev × Option (Except PollError Unit)
  | [] => ([], none)
  | r :: script =>
    match r with
    | .netErr => ([.get], some (.error .transport))
    | .badBody => ([.get], some (.error .malformed))
    | .body transcript_data =>
      match transcript_data.get "status" with
      | none => ([.get], some (.error .missingStatus))
      | some status =>
        match status.as_str with
        | none => ([.get], some (.error .statusNotStr))
        | some s =>
          if s = "completed" then
            ([.get, write_to_file transcript_id transcript_data], some (.ok ()))
          else if s = "error" then
            match transcript_data.get "error" with
            | some e => ([.get], some (.error (.serviceError e)))
            | none => ([.get], some (.error .missingError))
          else
            let (evs, out) := wait_for_transcription transcript_id script
            (.get :: .sleep 10 :: evs, out)

/-- A response that leaves the poller pending: a JSON body whose `status`
is a string other than `"completed"` and `"error"`. -/
def nonTerminal : PollResponse → Bool
  | .body j =>
    match j.get "status" with
    | some (.str s) => !(s = "completed") && !(s = "error")
    | _ => false
  | _ => false

/-! ### Submission (`Transcriber::transcribe`, src/transcribe.rs) -/

/-- The one failure mode of the submission response handling. -/
inductive SubmitError where
  | missingId

/-- The response handling of `Transcriber::transcribe` after the POST body
has been parsed as JSON: `parsed_json.get("id").and_then(|v| v.as_str())`,
with a "'id' key not found" error when that yields nothing. -/
def transcribe_parse (parsed_json : Json) : Except SubmitError String :=
  match (parsed_json.get "id").bind Json.as_str with
  | some s => .ok s
  | none => .error .missingId

/-! ### Question submitter (`QuestionAnswer::ask`, src/question_answer.rs) -/

/-- The `Answer` record: `{ question: String, answer: String }`. -/
structure Answer where
  question : String
  answer : String

/-- serde's `Deserialize` for `Answer`: a JSON object with string fields
`question` and `answer` (unknown fields ignored, missing ones an error). -/
def parseAnswer (j : Json) : Option Answer :=
  match (j.get "question").bind Json.as_str, (j.get "answer").bind Json.as_str with
  | some q, some a => some ⟨q, a⟩
  | _, _ => none

/-- serde's `Deserialize` for `Vec<Answer>`: a JSON array, every element an
`Answer`. -/
def parseAnswers (j : Json) : Option (List Answer) :=
  match j with
  | .arr xs => xs.mapM parseAnswer
  | _ => none

/-- Failure cases of `QuestionAnswer::ask`'s response handling. -/
inductive AskError where
  | missingResponse
  | answerParse

/-- The response handling of `QuestionAnswer::ask` after the POST body has
been parsed as JSON: look up `response`, parse it as `Vec<Answer>`, then
print `Question: {q}` and `Answer: {a}` lines for each answer, in order.
Returns the `Result` together with the lines printed to standard output
(errors print nothing: in the Rust code the `for` loop sits after the `?`
operator). -/
def ask_process (parsed_json : Json) : Except AskError Unit × List String :=
  match parsed_json.get "response" with
  | none => (.error .missingResponse, [])
  | some r =>
    match parseAnswers r with
    | none => (.error .answerParse, [])
    | some answers =>
      (.ok (), answers.flatMap fun a => ["Question: " ++ a.question, "Answer: " ++ a.answer])

/-! ### `transcribe::run` (src/transcribe.rs) -/

/-- `TranscriberArgs` (src/cli.rs). -/
structure TranscriberArgs where
  audio_url : Option String
  transcript_id : Option String

/-- Failures propagated by `run`. -/
inductive RunError where
  | submit (e : SubmitError)
  | poll (e : PollError)

/-- What `run` did: whether the submission POST was issued, which id the
polling loop was started with (if any), and the polling event trace. -/
structure RunTrace where
  submitted : Bool
  polledId : Option String
  events : List Ev

/-- `transcribe::run` against a scripted submission response body and a
scripted polling script.  Mirrors the Rust code: `t_id` starts as
`args.transcript_id`; if `args.audio_url` is set, the submission is
performed and its result overwrites `t_id` (propagating its error); if
`t_id` is then set, the polling loop runs with it. -/
def run (args : TranscriberArgs) (submitResp : Json) (script : List PollResponse) :
    RunTrace × Option (Except RunError Unit) :=
  match args.audio_url with
  | some _ =>
    match transcribe_parse submitResp with
    | .error e => (⟨true, none, []⟩, some (.error (.submit e)))
    | .ok sid =>
      let (evs, out) := wait_for_transcription sid script
      (⟨true, some sid, evs⟩, out.map (Except.mapError .poll))
  | none =>
    match args.transcript_id with
    | some tid =>
      let (evs, out) := wait_for_transcription tid script
      (⟨false, some tid, evs⟩, out.map (Except.mapError .poll))
    | none => (⟨false, none, []⟩, some (.ok ()))

/-- Write events. -/
def isWriteEv : Ev → Bool
  | .write _ _ => true
  | _ => false

/-- Whitespace-only character lists. -/
def WsOnly (ws : List Char) : Prop := ∀ c ∈ ws, isWsCh c = true

/-- At fuel `f`, the parser re-reads every printed canonical value of size
at most `f` (with any leading whitespace and any non-digit-headed
remainder). -/
def ParsesPrinted (f : Nat) : Prop :=
  ∀ (j : Json) (ind : Nat) (ws rest : List Char), WsOnly ws → jsize j ≤ f →
    headIsDigit rest = false → isCanonical j = true →
    parseValue f (ws ++ (printVal ind j ++ rest)) = some (j, rest)

/-- At fuel `f`, the item parser re-reads a printed non-empty item list. -/
def ParsesPrintedItems (f : Nat) : Prop :=
  ∀ (x : Json) (xs : List Json) (ind : Nat) (ws rest : List Char), WsOnly ws →
    itemsSize (x :: xs) ≤ f → listCanonical (x :: xs) = true →
    parseArrItems f (ws ++ (printVal (ind + 1) x ++ (printArrItems (ind + 1) xs
      ++ '\n' :: (indentCh ind ++ (']' :: rest))))) = some (x :: xs, rest)

/-- At fuel `f`, the member parser re-reads a printed non-empty member
list. -/
def ParsesPrintedMembers (f : Nat) : Prop :=
  ∀ (k : String) (v : Json) (kvs : List (String × Json)) (ind : Nat) (ws rest : List Char),
    WsOnly ws → membersSize ((k, v) :: kvs) ≤ f → objCanonical ((k, v) :: kvs) = true →
    parseObjItems f (ws ++ (printStrRaw k ++ (':' :: ' ' :: (printVal (ind + 1) v
      ++ (printObjItems (ind + 1) kvs ++ '\n' :: (indentCh ind ++ ('}' :: rest)))))))
      = some ((k, v) :: kvs, rest)

/-! ## Theorems -/

/-- Every file written by the polling loop is named `<id>.json`. -/
theorem wait_for_writes_name (id : String) (script : List PollResponse) :
    ∀ f c, Ev.write f c ∈ (wait_for_transcription id script).1 → f = id ++ ".json" := by
  induction script with
  | nil => intro f c hf; simp [wait_for_transcription] at hf
  | cons r rest ih =>
    intro f c hf
    cases r with
    | netErr => simp [wait_for_transcription] at hf
    | badBody => simp [wait_for_transcription] at hf
    | body j =>
      cases hs : j.get "status" with
      | none => simp [wait_for_transcription, hs] at hf
      | some st =>
        cases hst : st.as_str with
        | none => simp [wait_for_transcription, hs, hst] at hf
        | some s =>
          by_cases hc : s = "completed"
          · simp [wait_for_transcription, hs, hst, hc, write_to_file] at hf
            exact hf.1
          · by_cases he : s = "error"
            · cases hee : j.get "error" with
              | none => simp [wait_for_transcription, hs, hst, hc, he, hee] at hf
              | some e => simp [wait_for_transcription, hs, hst, hc, he, hee] at hf
            · simp [wait_for_transcription, hs, hst, hc, he] at hf
              exact ih f c hf

/-- C1: against the script `[{status:"processing"}, {status:"processing"},
{status:"completed", ...}]`, the poller issues exactly three GETs, sleeps
(10 s) exactly once between calls 1 and 2 and once between calls 2 and 3,
returns success, and hands the full third payload to the result sink. -/
theorem poller_three_step (id : String) (j1 j2 j3 : Json)
    (h1 : j1.get "status" = some (.str "processing"))
    (h2 : j2.get "status" = some (.str "processing"))
    (h3 : j3.get "status" = some (.str "completed")) :
    wait_for_transcription id [.body j1, .body j2, .body j3]
      = ([.get, .sleep 10, .get, .sleep 10, .get,
          .write (id ++ ".json") (to_string_pretty j3)], some (.ok ())) := by
  simp [wait_for_transcription, h1, h2, h3, Json.as_str, write_to_file]

/-- Witness for C1 at a concrete script. -/
theorem poller_three_step_wit :
    (Json.obj [("status", .str "processing")]).get "status" = some (.str "processing") ∧
    (Json.obj [("status", .str "completed"), ("text", .str "hi")]).get "status"
      = some (.str "completed") ∧
    wait_for_transcription "t1"
        [.body (.obj [("status", .str "processing")]),
         .body (.obj [("status", .str "processing")]),
         .body (.obj [("status", .str "completed"), ("text", .str "hi")])]
      = ([.get, .sleep 10, .get, .sleep 10, .get,
          .write ("t1" ++ ".json")
            (to_string_pretty (.obj [("status", .str "completed"), ("text", .str "hi")]))],
         some (.ok ())) :=
  ⟨rfl, rfl, poller_three_step "t1" _ _ _ rfl rfl rfl⟩

/-- C2: a first response with `status:"error"` makes the poller return
failure after exactly one GET, with no sleep, no retry and no write, and
the error carries the payload's `error` field. -/
theorem poller_error_stops (id : String) (j e : Json)
    (hs : j.get "status" = some (.str "error"))
    (he : j.get "error" = some e) :
    wait_for_transcription id [.body j] = ([.get], some (.error (.serviceError e))) := by
  simp [wait_for_transcription, hs, he, Json.as_str]

/-- Witness for C2: the error value `"bad audio"` is carried out. -/
theorem poller_error_stops_wit :
    (Json.obj [("error", .str "bad audio"), ("status", .str "error")]).get "status"
      = some (.str "error") ∧
    wait_for_transcription "t1" [.body (.obj [("error", .str "bad audio"), ("status", .str "error")])]
      = ([.get], some (.error (.serviceError (.str "bad audio")))) :=
  ⟨rfl, poller_error_stops "t1" _ (.str "bad audio") rfl rfl⟩

/-- C3: as long as every scripted response is non-terminal (valid JSON, a
string `status` that is neither `"completed"` nor `"error"`), the poller
performs one GET and one fixed 10-second sleep per response and has not
returned when the script runs out — there is no attempt bound or timeout. -/
theorem poller_nonterminal (id : String) (script : List PollResponse)
    (h : ∀ r ∈ script, nonTerminal r = true) :
    wait_for_transcription id script
      = (script.flatMap (fun _ => [Ev.get, Ev.sleep 10]), none) := by
  induction script with
  | nil => rfl
  | cons r rest ih =>
    have hr := h r (by simp)
    cases r with
    | netErr => simp [nonTerminal] at hr
    | badBody => simp [nonTerminal] at hr
    | body j =>
      simp only [nonTerminal] at hr
      cases hs : j.get "status" with
      | none => rw [hs] at hr; simp at hr
      | some st =>
        rw [hs] at hr
        cases st with
        | str s =>
          simp only [] at hr
          have hc : ¬ (s = "completed") := by
            intro hh; rw [hh] at hr; simp at hr
          have he : ¬ (s = "error") := by
            intro hh; rw [hh] at hr; simp at hr
          simp [wait_for_transcription, hs, Json.as_str, hc, he,
            ih (fun r hr' => h r (by simp [hr']))]
        | null => simp at hr
        | bool b => simp at hr
        | num n => simp at hr
        | arr xs => simp at hr
        | obj kvs => simp at hr

/-- Witness for C3 at a two-response non-terminal script. -/
theorem poller_nonterminal_wit :
    wait_for_transcription "t2"
        [.body (.obj [("status", .str "queued")]), .body (.obj [("status", .str "processing")])]
      = ([.get, .sleep 10, .get, .sleep 10], none) :=
  poller_nonterminal "t2" _ (by decide)

/-- C4: a submission response that is valid JSON with a string `id` field
makes `transcribe` return exactly that string. -/
theorem submission_returns_id (j : Json) (s : String)
    (h : j.get "id" = some (.str s)) :
    transcribe_parse j = .ok s := by
  simp [transcribe_parse, h, Json.as_str]

/-- Witness for C4. -/
theorem submission_returns_id_wit :
    (Json.obj [("id", .str "abc123"), ("status", .str "queued")]).get "id"
        = some (.str "abc123") ∧
      transcribe_parse (.obj [("id", .str "abc123"), ("status", .str "queued")])
        = .ok "abc123" :=
  ⟨rfl, submission_returns_id _ "abc123" rfl⟩

/-- C5: a submission response that is valid JSON but has no usable string
`id` — key absent, value not a string, or the body not an object at all —
makes `transcribe` fail with the missing-identifier error (and, being a
total function here, it cannot panic). -/
theorem submission_missing_id (j : Json)
    (h : j.get "id" = none ∨ ∃ v, j.get "id" = some v ∧ v.as_str = none) :
    transcribe_parse j = .error .missingId := by
  rcases h with h | ⟨v, hv, hvs⟩
  · simp [transcribe_parse, h]
  · simp [transcribe_parse, hv, hvs]

/-- Witness for C5: non-object JSON, non-string `id`, absent `id`. -/
theorem submission_missing_id_wit :
    transcribe_parse (.arr [.str "id"]) = .error .missingId ∧
      transcribe_parse (.obj [("id", .num 7)]) = .error .missingId ∧
      transcribe_parse (.obj [("status", .str "queued")]) = .error .missingId :=
  ⟨submission_missing_id _ (Or.inl rfl),
   submission_missing_id _ (Or.inr ⟨.num 7, rfl, rfl⟩),
   submission_missing_id _ (Or.inl rfl)⟩

/-- C6: a question response without the top-level `response` key fails with
the missing-field error and prints nothing; more generally, whenever the
answer-list parsing fails the printed output is empty — no partial
success. -/
theorem ask_all_or_nothing (j : Json) :
    (j.get "response" = none → ask_process j = (.error .missingResponse, [])) ∧
    (∀ e, (ask_process j).1 = .error e → (ask_process j).2 = []) := by
  constructor
  · intro h; simp [ask_process, h]
  · intro e he
    cases hr : j.get "response" with
    | none => simp [ask_process, hr]
    | some r =>
      cases ha : parseAnswers r with
      | none => simp [ask_process, hr, ha]
      | some answers => simp [ask_process, hr, ha] at he

/-- Witness for C6. -/
theorem ask_all_or_nothing_wit :
    ask_process (.obj [("error", .str "boom")]) = (.error .missingResponse, []) :=
  (ask_all_or_nothing _).1 rfl

/-- C7: when the `response` field parses as a list of answers, `ask` prints
one `Question:`/`Answer:` line pair per answer, in service order. -/
theorem ask_prints_answers (j r : Json) (answers : List Answer)
    (hr : j.get "response" = some r)
    (ha : parseAnswers r = some answers) :
    ask_process j
      = (.ok (), answers.flatMap fun a => ["Question: " ++ a.question, "Answer: " ++ a.answer]) := by
  simp [ask_process, hr, ha]

/-- Witness for C7 at `{"response":[{"question":"Q1","answer":"A1"}]}`:
exactly one pair, `Q1` before `A1`. -/
theorem ask_prints_answers_wit :
    ask_process (.obj [("response", .arr [.obj [("answer", .str "A1"), ("question", .str "Q1")]])])
      = (.ok (), ["Question: Q1", "Answer: A1"]) :=
  ask_prints_answers _ _ [⟨"Q1", "A1"⟩] rfl rfl

/-- C8: the transcript file is created only on `completed`: a run that does
not return success performs no write at all, and a successful run writes
exactly one file, `<id>.json`, holding the pretty-printed completed
payload. -/
theorem poller_writes_only_on_completed (id : String) (script : List PollResponse) :
    ((wait_for_transcription id script).2 ≠ some (.ok ()) →
      (wait_for_transcription id script).1.filter isWriteEv = []) ∧
    ((wait_for_transcription id script).2 = some (.ok ()) →
      ∃ j, j.get "status" = some (.str "completed") ∧
        (wait_for_transcription id script).1.filter isWriteEv
          = [write_to_file id j]) := by
  induction script with
  | nil => exact ⟨fun _ => by simp [wait_for_transcription], fun h => by simp [wait_for_transcription] at h⟩
  | cons r rest ih =>
    cases r with
    | netErr => exact ⟨fun _ => by simp [wait_for_transcription, isWriteEv],
        fun h => by simp [wait_for_transcription] at h⟩
    | badBody => exact ⟨fun _ => by simp [wait_for_transcription, isWriteEv],
        fun h => by simp [wait_for_transcription] at h⟩
    | body j =>
      cases hs : j.get "status" with
      | none => exact ⟨fun _ => by simp [wait_for_transcription, hs, isWriteEv],
          fun h => by simp [wait_for_transcription, hs] at h⟩
      | some st =>
        cases hst : st.as_str with
        | none => exact ⟨fun _ => by simp [wait_for_transcription, hs, hst, isWriteEv],
            fun h => by simp [wait_for_transcription, hs, hst] at h⟩
        | some s =>
          by_cases hc : s = "completed"
          · refine ⟨fun hne => absurd ?_ hne, fun _ => ?_⟩
            · simp [wait_for_transcription, hs, hst, hc]
            · refine ⟨j, ?_, ?_⟩
              · cases st with
                | str s' =>
                  simp [Json.as_str] at hst
                  rw [hst, hc] at hs; exact hs
                | null => simp [Json.as_str] at hst
                | bool b => simp [Json.as_str] at hst
                | num n => simp [Json.as_str] at hst
                | arr xs => simp [Json.as_str] at hst
                | obj kvs => simp [Json.as_str] at hst
              · simp [wait_for_transcription, hs, hst, hc, isWriteEv, write_to_file]
          · by_cases he : s = "error"
            · cases hee : j.get "error" with
              | none => exact ⟨fun _ => by simp [wait_for_transcription, hs, hst, hc, he, hee, isWriteEv],
                  fun h => by simp [wait_for_transcription, hs, hst, hc, he, hee] at h⟩
              | some e => exact ⟨fun _ => by simp [wait_for_transcription, hs, hst, hc, he, hee, isWriteEv],
                  fun h => by simp [wait_for_transcription, hs, hst, hc, he, hee] at h⟩
            · constructor
              · intro hne
                have : (wait_for_transcription id rest).2 ≠ some (.ok ()) := by
                  intro hh
                  apply hne
                  simp [wait_for_transcription, hs, hst, hc, he, hh]
                have h1 := ih.1 this
                simp [wait_for_transcription, hs, hst, hc, he, isWriteEv, h1]
              · intro hok
                have : (wait_for_transcription id rest).2 = some (.ok ()) := by
                  simp [wait_for_transcription, hs, hst, hc, he] at hok
                  exact hok
                obtain ⟨jj, hjj, hw⟩ := ih.2 this
                exact ⟨jj, hjj, by simp [wait_for_transcription, hs, hst, hc, he, isWriteEv, hw]⟩

/-- Witness for C8: a failing run writes nothing; a completing run writes
the one payload file. -/
theorem poller_writes_only_on_completed_wit :
    (wait_for_transcription "t3" [PollResponse.netErr]).1.filter isWriteEv = [] ∧
    ∃ j, j.get "status" = some (.str "completed") ∧
      (wait_for_transcription "t3" [.body (.obj [("status", .str "completed")])]).1.filter isWriteEv
        = [write_to_file "t3" j] :=
  ⟨(poller_writes_only_on_completed "t3" [.netErr]).1 (by simp [wait_for_transcription]),
   (poller_writes_only_on_completed "t3" [.body (.obj [("status", .str "completed")])]).2 rfl⟩

/-- C10: when both an audio URL and a transcript id are supplied, the run
behaves exactly as if no transcript id had been given (the supplied id is
silently discarded); submission is performed, the id it returns is the one
polled, and every file the run writes is named after the submission id. -/
theorem run_uses_submission_id (u t : String) (sub : Json) (script : List PollResponse) :
    run ⟨some u, some t⟩ sub script = run ⟨some u, none⟩ sub script ∧
    (∀ sid, transcribe_parse sub = .ok sid →
      (run ⟨some u, some t⟩ sub script).1.submitted = true ∧
      (run ⟨some u, some t⟩ sub script).1.polledId = some sid ∧
      ∀ f c, Ev.write f c ∈ (run ⟨some u, some t⟩ sub script).1.events → f = sid ++ ".json") := by
  refine ⟨rfl, fun sid hsid => ?_⟩
  refine ⟨by simp [run, hsid], by simp [run, hsid], fun f c hf => ?_⟩
  simp [run, hsid] at hf
  exact wait_for_writes_name sid script f c hf

/-- Witness for C10: the user-supplied id `user-id` is ignored, `sub1` from
the submission response is polled and names the file. -/
theorem run_uses_submission_id_wit :
    transcribe_parse (.obj [("id", .str "sub1")]) = .ok "sub1" ∧
    (run ⟨some "a.mp3", some "user-id"⟩ (.obj [("id", .str "sub1")])
        [.body (.obj [("status", .str "completed")])]).1.submitted = true ∧
    (run ⟨some "a.mp3", some "user-id"⟩ (.obj [("id", .str "sub1")])
        [.body (.obj [("status", .str "completed")])]).1.polledId = some "sub1" ∧
    ∀ f c, Ev.write f c ∈ (run ⟨some "a.mp3", some "user-id"⟩ (.obj [("id", .str "sub1")])
        [.body (.obj [("status", .str "completed")])]).1.events → f = "sub1" ++ ".json" := by
  have h := (run_uses_submission_id "a.mp3" "user-id" (.obj [("id", .str "sub1")])
    [.body (.obj [("status", .str "completed")])]).2 "sub1" rfl
  exact ⟨rfl, h.1, h.2.1, h.2.2⟩

/-! ### Round-trip helper lemmas -/

theorem skipWs_nil : skipWs [] = [] := rfl

theorem skipWs_cons_ws {c : Char} (h : isWsCh c = true) (cs : List Char) :
    skipWs (c :: cs) = skipWs cs := by
  simp [skipWs, List.dropWhile, h]

theorem skipWs_cons_not_ws {c : Char} (h : isWsCh c = false) (cs : List Char) :
    skipWs (c :: cs) = c :: cs := by
  simp [skipWs, List.dropWhile, h]

theorem skipWs_ws_append {ws : List Char} (h : ∀ c ∈ ws, isWsCh c = true) (cs : List Char) :
    skipWs (ws ++ cs) = skipWs cs := by
  induction ws with
  | nil => simp
  | cons c ws ih =>
    rw [List.cons_append, skipWs_cons_ws (h c (by simp))]
    exact ih (fun c hc => h c (by simp [hc]))

theorem indentCh_ws (n : Nat) : ∀ c ∈ indentCh n, isWsCh c = true := by
  intro c hc
  rw [List.eq_of_mem_replicate (show c ∈ List.replicate (2 * n) ' ' from hc)]
  decide

theorem charListLt_irrefl (as : List Char) : charListLt as as = false := by
  induction as with
  | nil => rfl
  | cons a as ih => simp [charListLt, ih, lt_irrefl]

theorem charListLt_asymm : ∀ {as bs : List Char},
    charListLt as bs = true → charListLt bs as = false := by
  intro as
  induction as with
  | nil => intro bs h; cases bs with
    | nil => simp [charListLt] at h
    | cons b bs => simp [charListLt]
  | cons a as ih =>
    intro bs h
    cases bs with
    | nil => simp [charListLt] at h
    | cons b bs =>
      simp only [charListLt, Bool.or_eq_true, Bool.and_eq_true, decide_eq_true_eq] at h
      rcases h with h | ⟨he, hlt⟩
      · have h1 : decide (b < a) = false := decide_eq_false (lt_asymm h)
        have h2 : decide (b = a) = false :=
          decide_eq_false (fun he => absurd h (by rw [he]; exact lt_irrefl a))
        simp [charListLt, h1, h2]
      · subst he
        have h1 : decide (a < a) = false := decide_eq_false (lt_irrefl a)
        simp [charListLt, h1, ih hlt]

theorem strLt_asymm {a b : String} (h : strLt a b = true) : strLt b a = false :=
  charListLt_asymm h

theorem strLt_ne {a b : String} (h : strLt a b = true) : a ≠ b := by
  intro he
  subst he
  rw [strLt, charListLt_irrefl] at h
  cases h

theorem insertKV_gt (k : String) (v : Json) :
    ∀ m : List (String × Json), (∀ kv ∈ m, strLt kv.1 k = true) →
      insertKV k v m = m ++ [(k, v)] := by
  intro m
  induction m with
  | nil => intro _; rfl
  | cons kv m ih =>
    intro h
    obtain ⟨k', v'⟩ := kv
    have hk' : strLt k' k = true := h (k', v') (by simp)
    rw [insertKV, if_neg, if_neg]
    · rw [ih (fun kv hm => h kv (by simp [hm]))]
      simp
    · exact fun he => strLt_ne hk' he.symm
    · rw [strLt_asymm hk']
      exact fun h => nomatch h

theorem keyLtAll_mem {k : String} : ∀ {l : List (String × Json)},
    keyLtAll k l = true → ∀ kv ∈ l, strLt k kv.1 = true := by
  intro l
  induction l with
  | nil => intro _ kv h; simp at h
  | cons kv' l ih =>
    intro h kv hm
    obtain ⟨k', v'⟩ := kv'
    simp [keyLtAll] at h
    rcases List.mem_cons.1 hm with he | hm'
    · rw [he]; exact h.1
    · exact ih h.2 kv hm'

theorem foldl_insertKV (l : List (String × Json)) :
    ∀ m : List (String × Json), objCanonical l = true →
      (∀ kv ∈ m, ∀ kv' ∈ l, strLt kv.1 kv'.1 = true) →
      l.foldl (fun m kv => insertKV kv.1 kv.2 m) m = m ++ l := by
  induction l with
  | nil => intro m _ _; simp
  | cons kv l ih =>
    intro m hc hlt
    obtain ⟨k, v⟩ := kv
    simp only [objCanonical, Bool.and_eq_true] at hc
    rw [List.foldl_cons, insertKV_gt k v m (fun kv hm => hlt kv hm (k, v) (by simp)),
      ih (m ++ [(k, v)]) hc.2]
    · simp
    · intro kv hm kv' hl
      rcases List.mem_append.1 hm with hm | hm
      · exact hlt kv hm kv' (by simp [hl])
      · simp at hm
        rw [hm]
        exact keyLtAll_mem hc.1.2 kv' hl

theorem buildObj_canonical {kvs : List (String × Json)} (h : objCanonical kvs = true) :
    buildObj kvs = kvs := by
  rw [buildObj, foldl_insertKV kvs [] h (by simp)]
  simp

theorem digitChar_spec : ∀ d, d < 10 →
    isDigitCh (digitChar d) = true ∧ digitVal (digitChar d) = d ∧
    isWsCh (digitChar d) = false ∧ (0 < d → digitChar d ≠ '0') := by decide

theorem digitCh_ne {c : Char} (h : isDigitCh c = true) {d : Char}
    (hd : isDigitCh d = false) : c ≠ d := by
  intro he
  subst he
  rw [h] at hd
  cases hd

theorem digit_not_ws {c : Char} (h : isDigitCh c = true) : isWsCh c = false := by
  have h1 : c ≠ ' ' := digitCh_ne h (by decide)
  have h2 : c ≠ '\t' := digitCh_ne h (by decide)
  have h3 : c ≠ '\n' := digitCh_ne h (by decide)
  have h4 : c ≠ '\r' := digitCh_ne h (by decide)
  simp [isWsCh, h1, h2, h3, h4]

theorem parseDigitsAux_append (ds : List Char) :
    ∀ (acc : Nat) (rest : List Char), (∀ c ∈ ds, isDigitCh c = true) →
      headIsDigit rest = false →
      parseDigitsAux acc (ds ++ rest)
        = (ds.foldl (fun a c => a * 10 + digitVal c) acc, rest) := by
  induction ds with
  | nil =>
    intro acc rest _ hrest
    cases rest with
    | nil => rfl
    | cons c cs =>
      simp only [headIsDigit] at hrest
      simp [parseDigitsAux, hrest]
  | cons d ds ih =>
    intro acc rest hds hrest
    have hd : isDigitCh d = true := hds d (by simp)
    simp only [List.cons_append, parseDigitsAux, hd, if_true, List.foldl_cons]
    exact ih _ rest (fun c hc => hds c (by simp [hc])) hrest

theorem natDigitsAux_spec : ∀ (fuel n : Nat), n < fuel →
    (∀ c ∈ natDigitsAux fuel n, isDigitCh c = true) ∧
    (natDigitsAux fuel n).foldl (fun a c => a * 10 + digitVal c) 0 = n ∧
    ∃ c cs, natDigitsAux fuel n = c :: cs ∧ (0 < n → c ≠ '0') := by
  intro fuel
  induction fuel with
  | zero => intro n h; omega
  | succ fuel ih =>
    intro n hn
    by_cases h10 : n < 10
    · refine ⟨?_, ?_, digitChar n, [], ?_⟩
      · intro c hc
        simp [natDigitsAux, h10] at hc
        rw [hc]
        exact (digitChar_spec n h10).1
      · simp [natDigitsAux, h10, (digitChar_spec n h10).2.1]
      · simp [natDigitsAux, h10]
        exact (digitChar_spec n h10).2.2.2
    · have hdiv : n / 10 < fuel := by
        have := Nat.div_lt_self (by omega : 0 < n) (by omega : 1 < 10)
        omega
      obtain ⟨ihall, ihval, c, cs, ihcons, ihhd⟩ := ih (n / 10) hdiv
      have hmod : n % 10 < 10 := Nat.mod_lt n (by omega)
      refine ⟨?_, ?_, c, cs ++ [digitChar (n % 10)], ?_, ?_⟩
      · intro ch hch
        simp [natDigitsAux, h10] at hch
        rcases hch with hch | hch
        · exact ihall ch hch
        · rw [hch]
          exact (digitChar_spec _ hmod).1
      · rw [natDigitsAux, if_neg h10, List.foldl_append, ihval, List.foldl_cons,
          List.foldl_nil, (digitChar_spec _ hmod).2.1]
        omega
      · rw [natDigitsAux, if_neg h10, ihcons]
        simp
      · intro _
        exact ihhd (by omega)

theorem parseNumNat_natDigits (n : Nat) (rest : List Char)
    (hrest : headIsDigit rest = false) :
    parseNumNat (natDigits n ++ rest) = some (n, rest) := by
  by_cases h0 : n = 0
  · subst h0
    have : natDigits 0 = ['0'] := rfl
    rw [this]
    simp [parseNumNat, hrest]
  · obtain ⟨hall, hval, c, cs, hcons, hhd⟩ := natDigitsAux_spec (n + 1) n (by omega)
    rw [natDigits, hcons, List.cons_append, parseNumNat]
    have hc : isDigitCh c = true := hall c (by rw [hcons]; simp)
    rw [if_neg (hhd (by omega)), if_pos hc,
      parseDigitsAux_append cs (digitVal c) rest
        (fun ch hch => hall ch (by rw [hcons]; simp [hch])) hrest]
    have : cs.foldl (fun a c => a * 10 + digitVal c) (digitVal c) = n := by
      have h := hval
      rw [hcons, List.foldl_cons] at h
      simpa using h
    rw [this]

theorem hexDigitChar_round : ∀ d, d < 16 → hexVal? (hexDigitChar d) = some d := by decide

theorem parseStrChars_quote (X : List Char) : parseStrChars ('"' :: X) = some ([], X) := by
  rw [parseStrChars.eq_def]
  simp

theorem parseStrChars_esc2 (e u : Char) (he : ¬ e = 'u')
    (hu : parseStrChars.unescapeCh e = some u) (X : List Char) :
    parseStrChars ('\\' :: e :: X)
      = (match parseStrChars X with
         | some (body, r) => some (u :: body, r)
         | none => none) := by
  rw [parseStrChars.eq_def]
  simp [he, hu]

theorem parseStrChars_escU (h1 h2 h3 h4 : Char) (a b c2 d : Nat)
    (ha : hexVal? h1 = some a) (hb : hexVal? h2 = some b)
    (hc : hexVal? h3 = some c2) (hd : hexVal? h4 = some d)
    (hval : ((a * 16 + b) * 16 + c2) * 16 + d < 55296) (X : List Char) :
    parseStrChars ('\\' :: 'u' :: h1 :: h2 :: h3 :: h4 :: X)
      = (match parseStrChars X with
         | some (body, r) => some (Char.ofNat (((a * 16 + b) * 16 + c2) * 16 + d) :: body, r)
         | none => none) := by
  rw [parseStrChars.eq_def]
  simp only []
  rw [if_neg (by decide : ¬ ('\\' : Char) = '"'), if_pos trivial, if_pos trivial,
    ha, hb, hc, hd]
  simp only []
  rw [if_pos (Or.inl hval)]

theorem parseStrChars_plain {c : Char} (h1 : ¬ c = '"') (h2 : ¬ c = '\\')
    (h3 : ¬ c.toNat < 32) (X : List Char) :
    parseStrChars (c :: X)
      = (match parseStrChars X with
         | some (body, r) => some (c :: body, r)
         | none => none) := by
  rw [parseStrChars.eq_def]
  simp only []
  rw [if_neg h1, if_neg h2, if_neg h3]

theorem parseStrChars_escape : ∀ (s rest : List Char),
    parseStrChars (escapeList s ++ '"' :: rest) = some (s, rest) := by
  intro s
  induction s with
  | nil => intro rest; rw [escapeList, List.nil_append, parseStrChars_quote]
  | cons c s ih =>
    intro rest
    rw [escapeList, List.append_assoc]
    by_cases h1 : c = '"'
    · subst h1
      rw [show escapeChar '"' = ['\\', '"'] from rfl, List.cons_append, List.cons_append,
        List.nil_append, parseStrChars_esc2 '"' '"' (by decide) rfl, ih]
    · by_cases h2 : c = '\\'
      · subst h2
        rw [show escapeChar '\\' = ['\\', '\\'] from rfl, List.cons_append, List.cons_append,
          List.nil_append, parseStrChars_esc2 '\\' '\\' (by decide) rfl, ih]
      · by_cases hctl : c.toNat < 0x20
        · by_cases h8 : c.toNat = 8
          · rw [show c = Char.ofNat 8 from by rw [← h8, Char.ofNat_toNat],
              show escapeChar (Char.ofNat 8) = ['\\', 'b'] from rfl, List.cons_append,
              List.cons_append, List.nil_append,
              parseStrChars_esc2 'b' (Char.ofNat 8) (by decide) rfl, ih]
          · by_cases h9 : c.toNat = 9
            · rw [show c = Char.ofNat 9 from by rw [← h9, Char.ofNat_toNat],
                show escapeChar (Char.ofNat 9) = ['\\', 't'] from rfl, List.cons_append,
                List.cons_append, List.nil_append,
                parseStrChars_esc2 't' (Char.ofNat 9) (by decide) rfl, ih]
            · by_cases h10 : c.toNat = 10
              · rw [show c = Char.ofNat 10 from by rw [← h10, Char.ofNat_toNat],
                  show escapeChar (Char.ofNat 10) = ['\\', 'n'] from rfl, List.cons_append,
                  List.cons_append, List.nil_append,
                  parseStrChars_esc2 'n' (Char.ofNat 10) (by decide) rfl, ih]
              · by_cases h12 : c.toNat = 12
                · rw [show c = Char.ofNat 12 from by rw [← h12, Char.ofNat_toNat],
                    show escapeChar (Char.ofNat 12) = ['\\', 'f'] from rfl, List.cons_append,
                    List.cons_append, List.nil_append,
                    parseStrChars_esc2 'f' (Char.ofNat 12) (by decide) rfl, ih]
                · by_cases h13 : c.toNat = 13
                  · rw [show c = Char.ofNat 13 from by rw [← h13, Char.ofNat_toNat],
                      show escapeChar (Char.ofNat 13) = ['\\', 'r'] from rfl, List.cons_append,
                      List.cons_append, List.nil_append,
                      parseStrChars_esc2 'r' (Char.ofNat 13) (by decide) rfl, ih]
                  · have hesc : escapeChar c
                        = ['\\', 'u', '0', '0', hexDigitChar (c.toNat / 16),
                           hexDigitChar (c.toNat % 16)] := by
                      rw [escapeChar, if_neg h1, if_neg h2, if_pos hctl, if_neg h8,
                        if_neg h9, if_neg h10, if_neg h12, if_neg h13]
                    have hhi : hexVal? (hexDigitChar (c.toNat / 16)) = some (c.toNat / 16) :=
                      hexDigitChar_round _ (by omega)
                    have hlo : hexVal? (hexDigitChar (c.toNat % 16)) = some (c.toNat % 16) :=
                      hexDigitChar_round _ (by omega)
                    rw [hesc, List.cons_append, List.cons_append, List.cons_append,
                      List.cons_append, List.cons_append, List.cons_append, List.nil_append,
                      parseStrChars_escU '0' '0' (hexDigitChar (c.toNat / 16))
                        (hexDigitChar (c.toNat % 16)) 0 0 (c.toNat / 16) (c.toNat % 16)
                        rfl rfl hhi hlo (by omega), ih]
                    have harith : ((0 * 16 + 0) * 16 + c.toNat / 16) * 16 + c.toNat % 16
                        = c.toNat := by omega
                    rw [harith, Char.ofNat_toNat]
        · rw [show escapeChar c ++ (escapeList s ++ '"' :: rest)
              = c :: (escapeList s ++ '"' :: rest) from by
                rw [escapeChar, if_neg h1, if_neg h2, if_neg hctl]; rfl,
            parseStrChars_plain h1 h2 hctl, ih]

theorem printStrRaw_append (s : String) (tail : List Char) :
    printStrRaw s ++ tail = '"' :: (escapeList s.data ++ '"' :: tail) := by
  simp [printStrRaw]

theorem natDigits_cons : ∀ n : Nat, ∃ c cs, natDigits n = c :: cs ∧ isDigitCh c = true := by
  intro n
  obtain ⟨hall, _, c, cs, hcons, _⟩ := natDigitsAux_spec (n + 1) n (by omega)
  exact ⟨c, cs, hcons, hall c (by rw [hcons]; simp)⟩

theorem printVal_head (ind : Nat) (j : Json) :
    ∃ c cs, printVal ind j = c :: cs ∧ isWsCh c = false ∧ ¬ c = ']' ∧ ¬ c = '}' := by
  cases j with
  | num n =>
    cases n with
    | ofNat m =>
      obtain ⟨c, cs, hcons, hdig⟩ := natDigits_cons m
      refine ⟨c, cs, ?_, digit_not_ws hdig, digitCh_ne hdig ?_, digitCh_ne hdig ?_⟩
      · rw [printVal, intChars, hcons]
      · decide
      · decide
    | negSucc m =>
      refine ⟨'-', natDigits (m + 1), ?_, ?_, ?_, ?_⟩
      · rw [printVal, intChars]
      · decide
      · decide
      · decide
  | null => refine ⟨'n', _, rfl, ?_, ?_, ?_⟩ <;> decide
  | bool b =>
    cases b with
    | false => refine ⟨'f', _, rfl, ?_, ?_, ?_⟩ <;> decide
    | true => refine ⟨'t', _, rfl, ?_, ?_, ?_⟩ <;> decide
  | str s => refine ⟨'"', _, rfl, ?_, ?_, ?_⟩ <;> decide
  | arr xs =>
    cases xs with
    | nil => refine ⟨'[', _, rfl, ?_, ?_, ?_⟩ <;> decide
    | cons x xs => refine ⟨'[', _, rfl, ?_, ?_, ?_⟩ <;> decide
  | obj kvs =>
    cases kvs with
    | nil => refine ⟨'{', _, rfl, ?_, ?_, ?_⟩ <;> decide
    | cons kv kvs =>
      obtain ⟨k, v⟩ := kv
      refine ⟨'{', _, rfl, ?_, ?_, ?_⟩ <;> decide

mutual

theorem jsize_le_len (j : Json) (ind : Nat) : jsize j ≤ (printVal ind j).length + 1 := by
  cases j with
  | null => simp [jsize]
  | bool b => cases b <;> simp [jsize]
  | num n => simp [jsize]
  | str s => simp [jsize]
  | arr xs =>
    cases xs with
    | nil => simp [jsize, itemsSize, printVal]
    | cons x xs =>
      have h1 := jsize_le_len x (ind + 1)
      have h2 := itemsSize_le_len xs (ind + 1)
      simp only [jsize, itemsSize, printVal, List.length_cons, List.length_append]
      omega
  | obj kvs =>
    cases kvs with
    | nil => simp [jsize, membersSize, printVal]
    | cons kv kvs =>
      obtain ⟨k, v⟩ := kv
      have h1 := jsize_le_len v (ind + 1)
      have h2 := membersSize_le_len kvs (ind + 1)
      simp only [jsize, membersSize, printVal, List.length_cons, List.length_append]
      omega

theorem itemsSize_le_len (xs : List Json) (ind : Nat) :
    itemsSize xs ≤ (printArrItems ind xs).length := by
  cases xs with
  | nil => simp [itemsSize, printArrItems]
  | cons x xs =>
    have h1 := jsize_le_len x ind
    have h2 := itemsSize_le_len xs ind
    simp only [itemsSize, printArrItems, List.length_cons, List.length_append]
    omega

theorem membersSize_le_len (kvs : List (String × Json)) (ind : Nat) :
    membersSize kvs ≤ (printObjItems ind kvs).length := by
  cases kvs with
  | nil => simp [membersSize, printObjItems]
  | cons kv kvs =>
    obtain ⟨k, v⟩ := kv
    have h1 := jsize_le_len v ind
    have h2 := membersSize_le_len kvs ind
    simp only [membersSize, printObjItems, List.length_cons, List.length_append]
    omega

end

theorem skipWs_to_head {ws : List Char} (hws : WsOnly ws) {c : Char}
    (hc : isWsCh c = false) (tail : List Char) :
    skipWs (ws ++ c :: tail) = c :: tail := by
  rw [skipWs_ws_append hws, skipWs_cons_not_ws hc]

theorem wsOnly_nil : WsOnly [] := by
  intro c hc
  cases hc

theorem wsOnly_space : WsOnly [' '] := by
  intro c hc
  simp at hc
  rw [hc]
  decide

theorem wsOnly_nl_indent (n : Nat) : WsOnly ('\n' :: indentCh n) := by
  intro c hc
  rcases List.mem_cons.1 hc with h | h
  · rw [h]; decide
  · exact indentCh_ws n c h

theorem stripLit_self : ∀ (lit rest : List Char), stripLit lit (lit ++ rest) = some rest := by
  intro lit
  induction lit with
  | nil => intro rest; rfl
  | cons p ps ih =>
    intro rest
    rw [List.cons_append]
    simp only [stripLit]
    rw [if_pos trivial]
    exact ih rest

theorem headIsDigit_items (ind : Nat) (xs : List Json) (X : List Char)
    (hX : headIsDigit X = false) :
    headIsDigit (printArrItems ind xs ++ X) = false := by
  cases xs with
  | nil => simpa [printArrItems] using hX
  | cons x xs => rfl

theorem headIsDigit_members (ind : Nat) (kvs : List (String × Json)) (X : List Char)
    (hX : headIsDigit X = false) :
    headIsDigit (printObjItems ind kvs ++ X) = false := by
  cases kvs with
  | nil => simpa [printObjItems] using hX
  | cons kv kvs => obtain ⟨k, v⟩ := kv; rfl

theorem jsize_pos (j : Json) : 1 ≤ jsize j := by
  cases j <;> simp [jsize]

theorem parsesPrinted_zero : ParsesPrinted 0 := by
  intro j ind ws rest _ hsz _ _
  have := jsize_pos j
  omega

theorem parsesPrintedItems_zero : ParsesPrintedItems 0 := by
  intro x xs ind ws rest _ hsz _
  simp [itemsSize] at hsz

theorem parsesPrintedMembers_zero : ParsesPrintedMembers 0 := by
  intro k v kvs ind ws rest _ hsz _
  simp [membersSize] at hsz

theorem stepA (f : Nat) (hB : ParsesPrintedItems f) (hC : ParsesPrintedMembers f) :
    ParsesPrinted (f + 1) := by
  intro j ind ws rest hws hsz hrest hcanon
  cases j with
  | null =>
    have hin : ws ++ (printVal ind .null ++ rest)
        = ws ++ 'n' :: 'u' :: 'l' :: 'l' :: rest := by simp [printVal]
    rw [hin]
    simp only [parseValue]
    rw [skipWs_to_head hws (by decide)]
    have hstrip := stripLit_self ['u', 'l', 'l'] rest
    simp only [List.cons_append, List.nil_append] at hstrip
    simp [hstrip]
  | bool b =>
    cases b with
    | true =>
      have hin : ws ++ (printVal ind (.bool true) ++ rest)
          = ws ++ 't' :: 'r' :: 'u' :: 'e' :: rest := by simp [printVal]
      rw [hin]
      simp only [parseValue]
      rw [skipWs_to_head hws (by decide)]
      have hstrip := stripLit_self ['r', 'u', 'e'] rest
      simp only [List.cons_append, List.nil_append] at hstrip
      simp [hstrip]
    | false =>
      have hin : ws ++ (printVal ind (.bool false) ++ rest)
          = ws ++ 'f' :: 'a' :: 'l' :: 's' :: 'e' :: rest := by simp [printVal]
      rw [hin]
      simp only [parseValue]
      rw [skipWs_to_head hws (by decide)]
      have hstrip := stripLit_self ['a', 'l', 's', 'e'] rest
      simp only [List.cons_append, List.nil_append] at hstrip
      simp [hstrip]
  | str s =>
    have hin : ws ++ (printVal ind (.str s) ++ rest)
        = ws ++ '"' :: (escapeList s.data ++ '"' :: rest) := by
      rw [printVal, printStrRaw_append]
    rw [hin]
    simp only [parseValue]
    rw [skipWs_to_head hws (by decide)]
    simp [parseStrChars_escape]
  | num n =>
    cases n with
    | ofNat m =>
      obtain ⟨c, cs, hcons, hdig⟩ := natDigits_cons m
      have hin : ws ++ (printVal ind (.num (.ofNat m)) ++ rest) = ws ++ c :: (cs ++ rest) := by
        rw [printVal, intChars, hcons]
        simp
      rw [hin]
      simp only [parseValue]
      rw [skipWs_to_head hws (digit_not_ws hdig)]
      have hnum : parseNumNat (c :: (cs ++ rest)) = some (m, rest) := by
        rw [show c :: (cs ++ rest) = natDigits m ++ rest from by rw [hcons, List.cons_append]]
        exact parseNumNat_natDigits m rest hrest
      simp only []
      rw [if_neg (digitCh_ne hdig (by decide)), if_neg (digitCh_ne hdig (by decide)),
        if_neg (digitCh_ne hdig (by decide)), if_neg (digitCh_ne hdig (by decide)),
        if_neg (digitCh_ne hdig (by decide)), if_neg (digitCh_ne hdig (by decide)),
        if_neg (digitCh_ne hdig (by decide)), if_pos hdig, hnum]
      rfl
    | negSucc m =>
      have hin : ws ++ (printVal ind (.num (.negSucc m)) ++ rest)
          = ws ++ '-' :: (natDigits (m + 1) ++ rest) := by
        rw [printVal, intChars]
        simp
      rw [hin]
      simp only [parseValue]
      rw [skipWs_to_head hws (by decide)]
      have hnum := parseNumNat_natDigits (m + 1) rest hrest
      simp [hnum, Int.negSucc_eq]
  | arr xs =>
    cases xs with
    | nil =>
      have hin : ws ++ (printVal ind (.arr []) ++ rest) = ws ++ '[' :: ']' :: rest := by
        simp [printVal]
      rw [hin]
      simp only [parseValue]
      rw [skipWs_to_head hws (by decide)]
      have hsk := skipWs_cons_not_ws (show isWsCh ']' = false by decide) rest
      simp [hsk]
    | cons x xs =>
      obtain ⟨cx, cxs, hpx, hpxws, hpx1, hpx2⟩ := printVal_head (ind + 1) x
      have hBi := hB x xs ind [] rest wsOnly_nil
        (by simp only [jsize] at hsz; omega)
        (by simpa [isCanonical] using hcanon)
      rw [List.nil_append] at hBi
      have hin : ws ++ (printVal ind (.arr (x :: xs)) ++ rest)
          = ws ++ '[' :: ('\n' :: (indentCh (ind + 1) ++ (printVal (ind + 1) x
              ++ (printArrItems (ind + 1) xs ++ '\n' :: (indentCh ind ++ (']' :: rest)))))) := by
        simp [printVal]
      rw [hin]
      simp only [parseValue]
      rw [skipWs_to_head hws (by decide)]
      simp only []
      rw [if_neg (by decide : ¬ ('[' : Char) = 'n'), if_neg (by decide : ¬ ('[' : Char) = 't'),
        if_neg (by decide : ¬ ('[' : Char) = 'f'), if_neg (by decide : ¬ ('[' : Char) = '"'),
        if_pos trivial]
      rw [skipWs_cons_ws (by decide), skipWs_ws_append (indentCh_ws (ind + 1)), hpx,
        List.cons_append, skipWs_cons_not_ws hpxws]
      simp only []
      rw [if_neg hpx1]
      conv in (cx :: (cxs ++ _)) => rw [← List.cons_append, ← hpx]
      rw [hBi]
  | obj kvs =>
    cases kvs with
    | nil =>
      have hin : ws ++ (printVal ind (.obj []) ++ rest) = ws ++ '{' :: '}' :: rest := by
        simp [printVal]
      rw [hin]
      simp only [parseValue]
      rw [skipWs_to_head hws (by decide)]
      have hsk := skipWs_cons_not_ws (show isWsCh '}' = false by decide) rest
      simp [hsk]
    | cons kv kvs =>
      obtain ⟨k, v⟩ := kv
      have hcanon' : objCanonical ((k, v) :: kvs) = true := by
        simpa [isCanonical] using hcanon
      have hCi := hC k v kvs ind [] rest wsOnly_nil
        (by simp only [jsize] at hsz; omega) hcanon'
      rw [List.nil_append] at hCi
      have hin : ws ++ (printVal ind (.obj ((k, v) :: kvs)) ++ rest)
          = ws ++ '{' :: ('\n' :: (indentCh (ind + 1) ++ (printStrRaw k
              ++ (':' :: ' ' :: (printVal (ind + 1) v
                ++ (printObjItems (ind + 1) kvs ++ '\n' :: (indentCh ind ++ ('}' :: rest)))))))) := by
        simp [printVal]
      rw [hin]
      simp only [parseValue]
      rw [skipWs_to_head hws (by decide)]
      simp only []
      rw [if_neg (by decide : ¬ ('{' : Char) = 'n'), if_neg (by decide : ¬ ('{' : Char) = 't'),
        if_neg (by decide : ¬ ('{' : Char) = 'f'), if_neg (by decide : ¬ ('{' : Char) = '"'),
        if_neg (by decide : ¬ ('{' : Char) = '['), if_pos trivial]
      rw [skipWs_cons_ws (by decide), skipWs_ws_append (indentCh_ws (ind + 1)),
        printStrRaw_append, skipWs_cons_not_ws (by decide)]
      simp only []
      rw [if_neg (by decide : ¬ ('"' : Char) = '}')]
      rw [← printStrRaw_append, hCi]
      simp only []
      rw [buildObj_canonical hcanon']

theorem stepB (f : Nat) (hA : ParsesPrinted f) (hB : ParsesPrintedItems f) :
    ParsesPrintedItems (f + 1) := by
  intro x xs ind ws rest hws hsz hcanon
  have hlc : isCanonical x = true ∧ listCanonical xs = true := by
    simpa [listCanonical] using hcanon
  simp only [parseArrItems]
  rw [hA x (ind + 1) ws (printArrItems (ind + 1) xs ++ '\n' :: (indentCh ind ++ (']' :: rest)))
    hws (by simp only [itemsSize] at hsz; omega)
    (headIsDigit_items _ _ _ rfl) hlc.1]
  simp only []
  cases xs with
  | nil =>
    simp only [printArrItems, List.nil_append]
    rw [skipWs_cons_ws (by decide), skipWs_ws_append (indentCh_ws ind),
      skipWs_cons_not_ws (by decide)]
    simp only []
    rw [if_neg (by decide : ¬ (']' : Char) = ','), if_pos trivial]
  | cons y ys =>
    simp only [printArrItems, List.cons_append, List.append_assoc]
    rw [skipWs_cons_not_ws (by decide)]
    simp only []
    rw [if_pos trivial]
    have hBi := hB y ys ind ('\n' :: indentCh (ind + 1)) rest (wsOnly_nl_indent _)
      (by simp only [itemsSize] at hsz ⊢; omega) hlc.2
    simp only [List.cons_append] at hBi
    rw [hBi]

theorem stepC (f : Nat) (hA : ParsesPrinted f) (hC : ParsesPrintedMembers f) :
    ParsesPrintedMembers (f + 1) := by
  intro k v kvs ind ws rest hws hsz hcanon
  have hcomp : (isCanonical v = true ∧ keyLtAll k kvs = true) ∧ objCanonical kvs = true := by
    simpa [objCanonical, Bool.and_eq_true] using hcanon
  simp only [parseObjItems]
  rw [printStrRaw_append, skipWs_to_head hws (by decide)]
  simp only []
  rw [if_pos trivial, parseStrChars_escape]
  simp only []
  rw [skipWs_cons_not_ws (by decide)]
  simp only []
  rw [if_pos trivial]
  have hAi := hA v (ind + 1) [' ']
    (printObjItems (ind + 1) kvs ++ '\n' :: (indentCh ind ++ ('}' :: rest)))
    wsOnly_space (by simp only [membersSize] at hsz; omega)
    (headIsDigit_members _ _ _ rfl) hcomp.1.1
  simp only [List.cons_append, List.nil_append] at hAi
  rw [hAi]
  simp only []
  cases kvs with
  | nil =>
    simp only [printObjItems, List.nil_append]
    rw [skipWs_cons_ws (by decide), skipWs_ws_append (indentCh_ws ind),
      skipWs_cons_not_ws (by decide)]
    simp only []
    rw [if_neg (by decide : ¬ ('}' : Char) = ','), if_pos trivial]
  | cons kv2 kvs2 =>
    obtain ⟨k2, v2⟩ := kv2
    simp only [printObjItems, List.cons_append, List.append_assoc]
    rw [skipWs_cons_not_ws (by decide)]
    simp only []
    rw [if_pos trivial]
    have hCi := hC k2 v2 kvs2 ind ('\n' :: indentCh (ind + 1)) rest (wsOnly_nl_indent _)
      (by simp only [membersSize] at hsz ⊢; omega) hcomp.2
    simp only [List.cons_append] at hCi
    rw [hCi]

theorem parse_print_fuel : ∀ f : Nat,
    ParsesPrinted f ∧ ParsesPrintedItems f ∧ ParsesPrintedMembers f := by
  intro f
  induction f with
  | zero => exact ⟨parsesPrinted_zero, parsesPrintedItems_zero, parsesPrintedMembers_zero⟩
  | succ f ih => exact ⟨stepA f ih.2.1 ih.2.2, stepB f ih.1 ih.2.1, stepC f ih.1 ih.2.2⟩

theorem pretty_roundtrip (j : Json) (h : isCanonical j = true) :
    from_str (to_string_pretty j) = some j := by
  have hmain := (parse_print_fuel ((printVal 0 j).length + 1)).1 j 0 [] []
    wsOnly_nil (jsize_le_len j 0) rfl h
  rw [List.nil_append, List.append_nil] at hmain
  show (match parseValue ((printVal 0 j).length + 1) (printVal 0 j) with
        | some (j, rest) => if skipWs rest = [] then some j else none
        | none => none) = some j
  rw [hmain]
  rfl

/-- C9: round trip — the result sink writes the pretty-printed payload to
`<id>.json`, and parsing the written contents back yields exactly the same
JSON value, for every canonical payload (object maps strictly sorted by
key — the invariant every `serde_json::Value` satisfies, since its objects
are `BTreeMap`s). -/
theorem write_read_roundtrip (id : String) (j : Json) (h : isCanonical j = true) :
    write_to_file id j = Ev.write (id ++ ".json") (to_string_pretty j) ∧
    from_str (to_string_pretty j) = some j :=
  ⟨rfl, pretty_roundtrip j h⟩

set_option maxRecDepth 400000 in
/-- Witness for C9 at a payload exercising every constructor: negative and
zero numbers, escapes in strings, nested arrays and objects, empty
containers. -/
theorem write_read_roundtrip_wit :
    isCanonical (Json.obj [("a", .num (-42)),
      ("b", .arr [.null, .bool true, .bool false, .str "hi\n \"x\" \\", .num 0, .num 307]),
      ("c", .obj []), ("d", .arr []),
      ("e", .obj [("k", .str "v"), ("z", .arr [.num 19])])]) = true ∧
    from_str (to_string_pretty (Json.obj [("a", .num (-42)),
      ("b", .arr [.null, .bool true, .bool false, .str "hi\n \"x\" \\", .num 0, .num 307]),
      ("c", .obj []), ("d", .arr []),
      ("e", .obj [("k", .str "v"), ("z", .arr [.num 19])])]))
      = some (Json.obj [("a", .num (-42)),
      ("b", .arr [.null, .bool true, .bool false, .str "hi\n \"x\" \\", .num 0, .num 307]),
      ("c", .obj []), ("d", .arr []),
      ("e", .obj [("k", .str "v"), ("z", .arr [.num 19])])]) := by
  have h : isCanonical (Json.obj [("a", .num (-42)),
      ("b", .arr [.null, .bool true, .bool false, .str "hi\n \"x\" \\", .num 0, .num 307]),
      ("c", .obj []), ("d", .arr []),
      ("e", .obj [("k", .str "v"), ("z", .arr [.num 19])])]) = true := rfl
  exact ⟨h, (write_read_roundtrip "t" _ h).2⟩
